import Mathlib

/-!
Verification development for the News_Mapper data core
(`src/data_loader.py`, `src/filters.py`, and the aggregation pipeline in
`src/main.py`).  Each Python function the claims depend on is shallowly
embedded as an executable Lean definition over explicit data types;
pandas tables become lists of records, cells become a small inductive of
Python values, and machinery such as `str.strip`, `str.split(",")` and
`sorted(...)` is re-implemented on character lists so that every
definition evaluates inside the kernel.
-/

namespace NewsMapper

/-! ### Python string primitives (character-list based) -/

/-- The single-quote character, written via its code point. -/
def quoteSingle : Char := Char.ofNat 39

/-- The double-quote character, written via its code point. -/
def quoteDouble : Char := Char.ofNat 34

/-- Whitespace recognised by Python `str.strip()` (ASCII subset: space,
tab, newline, carriage return). -/
def isPyWs (c : Char) : Bool :=
  c = ' ' || c = Char.ofNat 9 || c = Char.ofNat 10 || c = Char.ofNat 13

/-- Quote characters stripped by Python `str.strip("'\x22")` in
`parse_list_cell` (src/data_loader.py line 44). -/
def isQuote (c : Char) : Bool := c = quoteSingle || c = quoteDouble

/-- Drop the longest run of characters satisfying `p` from the front. -/
def dropLeading (p : Char → Bool) : List Char → List Char
  | [] => []
  | c :: cs => if p c then dropLeading p cs else c :: cs

/-- Python `str.strip(chars)`: drop characters satisfying `p` from both
ends of the character list. -/
def stripChars (p : Char → Bool) (cs : List Char) : List Char :=
  (dropLeading p (dropLeading p cs).reverse).reverse

/-- Python `str.strip()` on a string (whitespace both ends). -/
def pyStrip (s : String) : String := String.mk (stripChars isPyWs s.data)

/-- Python `str.strip("'\x22")` on a string (quote characters both ends). -/
def stripQuotes (s : String) : String := String.mk (stripChars isQuote s.data)

/-- Python `str.split(",")` on a character list: split at every comma,
keeping empty pieces (unlike split with no argument). -/
def splitComma : List Char → List (List Char)
  | [] => [[]]
  | c :: rest =>
    match splitComma rest with
    | [] => [[c]]
    | g :: gs => if c = ',' then [] :: g :: gs else (c :: g) :: gs

/-- Python `str.lower()` (ASCII model via `Char.toLower`). -/
def pyLower (s : String) : String := String.mk (s.data.map Char.toLower)

/-! ### ListCellCodec: `parse_list_cell` (src/data_loader.py lines 21-46)

`ast.literal_eval` is Python library code, so it is modelled by a
recursive-descent parser restricted to the grammar the list cells use:
a flat bracketed list of quoted-string or integer atoms, or a single
such atom.  On anything else it reports a parse exception, exactly the
`(ValueError, SyntaxError)` family the source catches. -/

/-- Scalar literals produced by the modelled `ast.literal_eval`. -/
inductive PyAtom where
  | str (s : String)
  | int (n : Int)
deriving DecidableEq

/-- Results of the modelled `ast.literal_eval`: a scalar or a flat list
of scalars. -/
inductive PyLit where
  | atom (a : PyAtom)
  | list (xs : List PyAtom)
deriving DecidableEq

/-- Exception kinds `ast.literal_eval` raises on malformed text; the
source's `except (ValueError, SyntaxError)` names exactly these. -/
inductive PyExc where
  | valueError
  | syntaxError
deriving DecidableEq

/-- Python `str(...)` of a parsed scalar literal. -/
def PyAtom.toPyStr : PyAtom → String
  | .str s => s
  | .int n => toString n

/-- Skip leading whitespace. -/
def skipWs (cs : List Char) : List Char := dropLeading isPyWs cs

/-- Consume characters up to a closing quote `q`; `none` when the quote
is unterminated. -/
def takeUntilQuote (q : Char) : List Char → Option (List Char × List Char)
  | [] => none
  | c :: cs =>
    if c = q then some ([], cs)
    else (takeUntilQuote q cs).map (fun p => (c :: p.1, p.2))

/-- Split off a maximal run of decimal digits. -/
def takeDigits : List Char → List Char × List Char
  | [] => ([], [])
  | c :: cs =>
    if c.isDigit then
      match takeDigits cs with
      | (ds, rest) => (c :: ds, rest)
    else ([], c :: cs)

/-- Numeric value of a digit run. -/
def digitsToNat (ds : List Char) : Nat :=
  ds.foldl (fun acc c => 10 * acc + (c.toNat - 48)) 0

/-- Parse one atom (quoted string or optionally signed integer). -/
def parseAtom (cs : List Char) : Option (PyAtom × List Char) :=
  match cs with
  | [] => none
  | c :: rest =>
    if c = quoteSingle || c = quoteDouble then
      (takeUntilQuote c rest).map (fun p => (PyAtom.str (String.mk p.1), p.2))
    else if c = '-' then
      match takeDigits rest with
      | ([], _) => none
      | (ds, after) => some (PyAtom.int (-(digitsToNat ds : Int)), after)
    else if c.isDigit then
      match takeDigits (c :: rest) with
      | ([], _) => none
      | (ds, after) => some (PyAtom.int (digitsToNat ds : Int), after)
    else none

/-- Parse the comma-separated atoms of a bracketed list, starting just
after the opening bracket, consuming the closing bracket.  The fuel
argument bounds the recursion; each round consumes at least one
character, so passing the input length is always sufficient. -/
def parseElems : Nat → List Char → Option (List PyAtom × List Char)
  | 0, _ => none
  | fuel + 1, cs =>
    match parseAtom (skipWs cs) with
    | none => none
    | some (a, rest) =>
      match skipWs rest with
      | c :: rest2 =>
        if c = ',' then
          match parseElems fuel rest2 with
          | some (xs, r) => some (a :: xs, r)
          | none => none
        else if c = ']' then some ([a], rest2)
        else none
      | [] => none

/-- Modelled `ast.literal_eval` on a cell text: succeeds on a flat list
literal or a single scalar literal with nothing but whitespace around
it, and raises `SyntaxError` otherwise. -/
def literal_eval (s : String) : Except PyExc PyLit :=
  match skipWs s.data with
  | '[' :: rest =>
    match skipWs rest with
    | ']' :: after =>
      if skipWs after = [] then .ok (.list []) else .error .syntaxError
    | _ =>
      match parseElems rest.length rest with
      | some (xs, after) =>
        if skipWs after = [] then .ok (.list xs) else .error .syntaxError
      | none => .error .syntaxError
  | cs =>
    match parseAtom cs with
    | some (a, rest) =>
      if skipWs rest = [] then .ok (.atom a) else .error .syntaxError
    | none => .error .syntaxError

/-- Step 1 of the textual decode: `[str(v).strip() for v in parsed if
str(v).strip()]` (src/data_loader.py line 37). -/
def decodeParsedList (xs : List PyAtom) : List String :=
  ((xs.map PyAtom.toPyStr).map pyStrip).filter (fun s => decide (s ≠ ""))

/-- Steps 2-3 of the textual decode (src/data_loader.py lines 41-44):
strip one bracket pair only when the text both starts with `[` and ends
with `]`, then split on commas, trimming whitespace and then quote
characters from each piece and dropping pieces that become empty. -/
def splitFallback (cell : String) : List String :=
  let core :=
    if cell.data.head? = some '[' ∧ cell.data.getLast? = some ']' then
      cell.data.tail.dropLast
    else cell.data
  ((splitComma core).map
      (fun p => stripQuotes (pyStrip (String.mk p)))).filter
    (fun s => decide (s ≠ ""))

/-- Textual decode path of `parse_list_cell` for a string cell
(src/data_loader.py lines 29-44). -/
def parse_list_cell_str (value : String) : List String :=
  let cell := pyStrip value
  if cell = "" then []
  else
    match literal_eval cell with
    | .ok (.list xs) => decodeParsedList xs
    | .ok (.atom _) => splitFallback cell
    | .error _ => splitFallback cell

/-- Textual decode with the source's `try/except` made explicit: an
exception from the literal-parsing step propagates unless its kind is
listed in the `except (ValueError, SyntaxError)` clause, in which case
the decode falls through to bracket stripping and comma splitting. -/
def parse_list_cell_try (value : String) : Except PyExc (List String) :=
  let cell := pyStrip value
  if cell = "" then .ok []
  else
    match literal_eval cell with
    | .ok (.list xs) => .ok (decodeParsedList xs)
    | .ok (.atom _) => .ok (splitFallback cell)
    | .error PyExc.valueError => .ok (splitFallback cell)
    | .error PyExc.syntaxError => .ok (splitFallback cell)

/-- Python cell values as read from a CSV column. -/
inductive PyCell where
  | pynone
  | nan
  | str (s : String)
  | int (n : Int)
  | listv (xs : List String)
deriving DecidableEq

/-- Full `parse_list_cell` (src/data_loader.py lines 21-46): `None`/NaN
decode to `[]`; native sequences are stringified, trimmed and cleared of
empties; strings take the textual path; other scalars become a
one-element list. -/
def parse_list_cell : PyCell → List String
  | .pynone => []
  | .nan => []
  | .listv xs => (xs.map pyStrip).filter (fun s => decide (s ≠ ""))
  | .str s => parse_list_cell_str s
  | .int n => [pyStrip (toString n)]

/-! ### Timestamps and per-column coercions of the loader -/

/-- A timestamp: a calendar day (as a day number, any strictly monotone
integer encoding of dates) together with a time-of-day offset within
the day.  `pd.to_datetime` of a plain date yields midnight, i.e. a zero
time-of-day. -/
structure DateTime where
  day : Int
  tod : Nat
deriving DecidableEq

/-- Timestamp order, lexicographic on (day, time-of-day), as a
proposition. -/
def DateTime.le (a b : DateTime) : Prop :=
  a.day < b.day ∨ (a.day = b.day ∧ a.tod ≤ b.tod)

/-- Timestamp order as a boolean, used by the filter masks. -/
def DateTime.leB (a b : DateTime) : Bool :=
  decide (a.day < b.day) || (decide (a.day = b.day) && decide (a.tod ≤ b.tod))

/-- Optionally signed decimal integer text, the restriction of
`pd.to_numeric` relevant here; `none` models coercion to NaN under
`errors="coerce"`. -/
def parseIntText (s : String) : Option Int :=
  match stripChars isPyWs s.data with
  | '-' :: ds =>
    if ds ≠ [] ∧ ds.all Char.isDigit then some (-(digitsToNat ds : Int)) else none
  | ds =>
    if ds ≠ [] ∧ ds.all Char.isDigit then some (digitsToNat ds : Int) else none

/-- The `shows` pipeline `pd.to_numeric(c, errors="coerce").fillna(0)
.astype(int)` (src/data_loader.py line 107): numeric values pass
through unchanged (negative ones included), everything unparseable or
missing becomes NaN and is then filled with 0. -/
def to_numeric_shows : PyCell → Int
  | .pynone => 0
  | .nan => 0
  | .int n => n
  | .str s => (parseIntText s).getD 0
  | .listv _ => 0

/-- The `dt` pipeline `pd.to_datetime(c, errors="coerce")`
(src/data_loader.py line 110).  Modelled restriction: valid source
timestamps are carried as integer day numbers; any other cell coerces
to absent (`NaT`), never raising. -/
def parse_dt : PyCell → Option DateTime
  | .int n => some ⟨n, 0⟩
  | _ => none

/-! ### DatasetLoader: `DataModel.from_csv` (src/data_loader.py lines 66-151) -/

/-- One raw source row, fields named after the CSV columns the loader
touches (`publication_title_name` shortened to `title`). -/
structure SrcRow where
  dt : PyCell
  title : String
  shows : PyCell
  bad_verdicts_list : PyCell
  topics_verdicts_list : PyCell
  persons : PyCell
  organizations : PyCell
  locations : PyCell
  country : PyCell
deriving DecidableEq

/-- One row of the canonical loaded table after per-chunk
normalization. -/
structure Row where
  dt : Option DateTime
  title_lower : String
  shows : Int
  bad_verdicts_list : List String
  topics_verdicts_list : List String
  persons : List String
  organizations : List String
  locations : List String
  country : List String
deriving DecidableEq

/-- Per-row normalization applied to every chunk (src/data_loader.py
lines 102-113): list columns through `parse_list_cell`, `shows` through
the numeric coercion, `dt` through the datetime coercion, and
`title_lower` derived by lowercasing. -/
def processRow (r : SrcRow) : Row :=
  { dt := parse_dt r.dt
    title_lower := pyLower r.title
    shows := to_numeric_shows r.shows
    bad_verdicts_list := parse_list_cell r.bad_verdicts_list
    topics_verdicts_list := parse_list_cell r.topics_verdicts_list
    persons := parse_list_cell r.persons
    organizations := parse_list_cell r.organizations
    locations := parse_list_cell r.locations
    country := parse_list_cell r.country }

/-- Chunks of `n` rows, fuel-guarded; the fuel is instantiated with the
list length, which always suffices when `n > 0`. -/
def chunksOfAux (n : Nat) : Nat → List α → List (List α)
  | 0, _ => []
  | _, [] => []
  | fuel + 1, c :: cs => (c :: cs).take n :: chunksOfAux n fuel ((c :: cs).drop n)

/-- The chunk stream `pd.read_csv(..., chunksize=n)` delivers: chunks
of `n` rows, the final one possibly shorter. -/
def chunksOf (n : Nat) (l : List α) : List (List α) := chunksOfAux n l.length l

/-- The accumulation loop of `from_csv` (src/data_loader.py lines
93-117): with no cap, every chunk is processed and concatenated; with
cap `r`, the loop breaks once `remaining <= 0`, truncates a chunk that
would overshoot (`chunk.iloc[:remaining]`, i.e. `take r`), and
decrements `remaining` by the length of the appended chunk. -/
def loadChunksCapped : Option Nat → List (List SrcRow) → List Row
  | _, [] => []
  | none, c :: cs => c.map processRow ++ loadChunksCapped none cs
  | some r, c :: cs =>
    if r = 0 then []
    else (c.take r).map processRow ++ loadChunksCapped (some (r - (c.take r).length)) cs

/-- Row assembly of `DataModel.from_csv` on the no-cache path: stream
the source in chunks of `chunksize` rows, normalize each chunk, stop at
`max_rows` when given. -/
def from_csv_rows (src : List SrcRow) (chunksize : Nat) (max_rows : Option Nat) :
    List Row :=
  loadChunksCapped max_rows (chunksOf chunksize src)

/-- What the filesystem offers at the source path: nothing readable, a
file that cannot be parsed as tabular data, or parsed source rows. -/
inductive SourceState where
  | missing
  | malformed
  | rowsOk (rows : List SrcRow)
deriving DecidableEq

/-- The spec's error taxonomy for loading: `SourceNotFoundError`
(`FileNotFoundError` from `pd.read_csv`) and `MalformedSourceError`
(pandas parser errors). -/
inductive LoadError where
  | sourceNotFound
  | malformedSource
deriving DecidableEq

/-- `DataModel.from_csv` with the cache branch (src/data_loader.py
lines 90-119): an existing cache artifact is loaded directly and the
textual source is never consulted; otherwise reading the source raises
according to its state, and on success the chunked accumulation runs. -/
def load (cache : Option (List Row)) (src : SourceState) (chunksize : Nat)
    (max_rows : Option Nat) : Except LoadError (List Row) :=
  match cache with
  | some df => .ok df
  | none =>
    match src with
    | .missing => .error .sourceNotFound
    | .malformed => .error .malformedSource
    | .rowsOk rows => .ok (from_csv_rows rows chunksize max_rows)

/-! ### FilterEngine: `FilterState`, `_intersects`, `apply_filters`
(src/filters.py lines 11-44) -/

/-- The filter snapshot (src/filters.py lines 11-17): optional date
bounds and three selected-string sets, all inactive by default.
Selected values are Python sets, modelled as finite sets of strings. -/
structure FilterState where
  start_date : Option Int := none
  end_date : Option Int := none
  persons : Finset String := ∅
  organizations : Finset String := ∅
  countries : Finset String := ∅

/-- `pd.to_datetime` of a plain date bound: midnight of that day. -/
def date_to_dt (d : Int) : DateTime := ⟨d, 0⟩

/-- `_intersects` (src/filters.py lines 20-23): with an empty selection
every row passes; otherwise a row passes when its value list meets the
selected set (`bool(set(values or []) & selected)`). -/
def _intersects (values : List String) (selected : Finset String) : Bool :=
  if selected = ∅ then true
  else values.any (fun v => decide (v ∈ selected))

/-- A pandas `Series >= ts` comparison against an optional timestamp:
`NaT` compares `False` against everything. -/
def dtGeB : Option DateTime → DateTime → Bool
  | none, _ => false
  | some t, b => DateTime.leB b t

/-- A pandas `Series <= ts` comparison against an optional timestamp:
`NaT` compares `False` against everything. -/
def dtLeB : Option DateTime → DateTime → Bool
  | none, _ => false
  | some t, b => DateTime.leB t b

/-- The row mask accumulated by `apply_filters` (src/filters.py lines
30-42): starts all-true and is conjoined with one term per active
constraint; a bound or selection left unset (`if state.x:` falsy)
contributes nothing. -/
def row_mask (s : FilterState) (r : Row) : Bool :=
  (match s.start_date with
   | none => true
   | some d => dtGeB r.dt (date_to_dt d)) &&
  (match s.end_date with
   | none => true
   | some d => dtLeB r.dt (date_to_dt d)) &&
  (if s.persons = ∅ then true else _intersects r.persons s.persons) &&
  (if s.organizations = ∅ then true else _intersects r.organizations s.organizations) &&
  (if s.countries = ∅ then true else _intersects r.country s.countries)

/-- `apply_filters` (src/filters.py lines 26-44): an empty table is
returned unchanged; otherwise the rows selected by the mask. -/
def apply_filters (df : List Row) (s : FilterState) : List Row :=
  if df = [] then df else df.filter (row_mask s)

/-- Written from the claim text of C1, not from the code: a row passes
when, for each bound that is set, its `publishedAt` is present and
within the bound, and, for each non-empty selection, the corresponding
multi-valued column intersects the selected set; an empty selection
constrains nothing. -/
def specRowPasses (s : FilterState) (r : Row) : Prop :=
  (∀ d, s.start_date = some d → ∃ t, r.dt = some t ∧ DateTime.le (date_to_dt d) t) ∧
  (∀ d, s.end_date = some d → ∃ t, r.dt = some t ∧ DateTime.le t (date_to_dt d)) ∧
  (s.persons ≠ ∅ → ∃ v ∈ r.persons, v ∈ s.persons) ∧
  (s.organizations ≠ ∅ → ∃ v ∈ r.organizations, v ∈ s.organizations) ∧
  (s.countries ≠ ∅ → ∃ v ∈ r.country, v ∈ s.countries)

/-! ### Sorting infrastructure

Python's `sorted` and pandas' ascending `groupby` keys are modelled by
an insertion sort with deduplication; pandas' stable multi-column
`sort_values` by an insertion sort keyed with the original position as
final tie-break.  Both are structural recursions, so they evaluate in
the kernel. -/

/-- Code-point order on character lists (Python string comparison). -/
def charsLt : List Char → List Char → Bool
  | [], [] => false
  | [], _ :: _ => true
  | _ :: _, [] => false
  | a :: as, b :: bs =>
    if a.toNat < b.toNat then true
    else if b.toNat < a.toNat then false
    else charsLt as bs

/-- Python string comparison `a < b` (lexicographic by code point). -/
def strLt (a b : String) : Bool := charsLt a.data b.data

/-- Integer comparison as a boolean key. -/
def intLt (a b : Int) : Bool := decide (a < b)

/-- Insert into a strictly `lt`-sorted duplicate-free list, keeping it
strictly sorted and duplicate-free. -/
def insertSortedDedup (lt : α → α → Bool) [DecidableEq α] (a : α) :
    List α → List α
  | [] => [a]
  | b :: bs =>
    if lt a b then a :: b :: bs
    else if a = b then b :: bs
    else b :: insertSortedDedup lt a bs

/-- Python `sorted(set(l))`: the distinct elements of `l` in strictly
ascending `lt` order. -/
def sortedDedup (lt : α → α → Bool) [DecidableEq α] (l : List α) : List α :=
  l.foldr (insertSortedDedup lt) []

/-- Insert before the first element the inserted one is `le`-below;
equal keys land after existing ones, making the sort stable. -/
def insertBy (le : α → α → Bool) (a : α) : List α → List α
  | [] => [a]
  | b :: bs => if le a b then a :: b :: bs else b :: insertBy le a bs

/-- Stable insertion sort by a boolean total preorder. -/
def insertionSortBy (le : α → α → Bool) (l : List α) : List α :=
  l.foldr (insertBy le) []

/-! ### Aggregator: `aggregate_by_day` (src/data_loader.py lines
171-184) and the entity ranking of `Dashboard._update_visuals`
(src/main.py lines 237-246) -/

/-- One entry of the daily summary: calendar date, row count
(`publications=("dt", "size")`) and summed shows
(`shows=("shows", "sum")`). -/
structure DayStat where
  date : Int
  publications : Nat
  shows : Int
deriving DecidableEq

/-- The calendar date of a row, `df["dt"].dt.date`: absent when the
timestamp is absent. -/
def rowDay (r : Row) : Option Int := r.dt.map DateTime.day

/-- `aggregate_by_day` (src/data_loader.py lines 171-184): drop rows
with absent `dt`, group by calendar date (pandas `groupby` sorts the
keys ascending), count rows and sum `shows` per group. -/
def aggregate_by_day (df : List Row) : List DayStat :=
  (sortedDedup intLt (df.filterMap rowDay)).map (fun d =>
    { date := d
      publications := (df.filter (fun r => decide (rowDay r = some d))).length
      shows := ((df.filter (fun r => decide (rowDay r = some d))).map Row.shows).sum })

/-- One entry of an entity ranking: entity value, occurrence count
(`mentions=(col, "size")`) and summed shows (`shows=("shows", "sum")`). -/
structure EntityStat where
  entity : String
  mentions : Nat
  shows : Int
deriving DecidableEq

/-- The `groupby(col).agg(...).reset_index()` stage on an exploded view
(src/main.py lines 241-243): one entry per distinct entity value, in
ascending entity order (pandas `groupby` sorts its keys). -/
def groupEntities (xs : List (String × Int)) : List EntityStat :=
  (sortedDedup strLt (xs.map Prod.fst)).map (fun e =>
    { entity := e
      mentions := (xs.filter (fun p => decide (p.1 = e))).length
      shows := ((xs.filter (fun p => decide (p.1 = e))).map Prod.snd).sum })

/-- The key order of `sort_values(["mentions", "shows"],
ascending=False)` on position-tagged entries: mentions descending, then
shows descending, with the original position as final tie-break — the
stable lexicographic sort pandas performs for a column list. -/
def rankKeyLeP (a b : Nat × EntityStat) : Prop :=
  b.2.mentions < a.2.mentions ∨
    (a.2.mentions = b.2.mentions ∧
      (b.2.shows < a.2.shows ∨ (a.2.shows = b.2.shows ∧ a.1 ≤ b.1)))

instance (a b : Nat × EntityStat) : Decidable (rankKeyLeP a b) := by
  unfold rankKeyLeP; infer_instance

/-- Boolean form of `rankKeyLeP` for the sort. -/
def rankKeyLe (a b : Nat × EntityStat) : Bool := decide (rankKeyLeP a b)

/-- `sort_values(["mentions", "shows"], ascending=False)`: stable
descending sort of the grouped entries. -/
def sortMentionsDesc (l : List EntityStat) : List EntityStat :=
  (insertionSortBy rankKeyLe l.enum).map Prod.snd

/-- The full ranking pipeline of src/main.py lines 237-246 with the
`head` cap as a parameter (the dashboard instantiates `topN := 5`):
group the exploded view by entity, sort by mentions then shows
descending, truncate to the first `topN` entries. -/
def rankEntities (xs : List (String × Int)) (topN : Nat) : List EntityStat :=
  (sortMentionsDesc (groupEntities xs)).take topN

/-! ### `extract_unique` (src/filters.py lines 47-56) -/

/-- Cell values as `extract_unique` sees them: NaN (dropped by
`dropna`), a plain string or bytes object (iterable but excluded by the
`isinstance` guard), a list of strings (a non-string iterable), or a
non-iterable scalar. -/
inductive UCell where
  | nan
  | str (s : String)
  | bytes (bs : List Nat)
  | strList (xs : List String)
  | scalar (n : Int)
deriving DecidableEq

/-- The items a cell contributes to the comprehension in
`extract_unique`: only a non-string iterable contributes its elements;
strings, bytes and non-iterables contribute the empty list, and NaN
cells were already removed by `dropna`. -/
def ucellItems : UCell → List String
  | .strList xs => xs
  | _ => []

/-- `extract_unique` (src/filters.py lines 47-56): the set of non-empty
items contributed by the cells, returned sorted. -/
def extract_unique (cells : List UCell) : List String :=
  sortedDedup strLt ((cells.flatMap ucellItems).filter (fun s => decide (s ≠ "")))

/-- A concrete row builder shared by the example theorems: a timestamp,
a `shows` value, and every other column empty. -/
def mkRow (dt : Option DateTime) (shows : Int) : Row :=
  { dt := dt, title_lower := "", shows := shows, bad_verdicts_list := [],
    topics_verdicts_list := [], persons := [], organizations := [],
    locations := [], country := [] }

/-- A concrete source row builder shared by the example theorems. -/
def mkSrcRow (dt : PyCell) (shows : PyCell) : SrcRow :=
  { dt := dt, title := "", shows := shows, bad_verdicts_list := .pynone,
    topics_verdicts_list := .pynone, persons := .pynone,
    organizations := .pynone, locations := .pynone, country := .pynone }

/-- The unbalanced-bracket input of C4, `"[Alice, 'Bob"`, built from
character codes. -/
def exBadCell : String :=
  String.mk ['[', 'A', 'l', 'i', 'c', 'e', ',', ' ', Char.ofNat 39, 'B', 'o', 'b']

/-- A three-row concrete source used by the C7 witness. -/
def src3 : List SrcRow :=
  [mkSrcRow (PyCell.int 1) (PyCell.int 5), mkSrcRow (PyCell.int 2) (PyCell.int 6),
    mkSrcRow (PyCell.int 3) (PyCell.int 7)]

/-! ### Lemmas about the sorting infrastructure -/

theorem mem_insertSortedDedup (lt : α → α → Bool) [DecidableEq α] (a x : α)
    (l : List α) : x ∈ insertSortedDedup lt a l ↔ x = a ∨ x ∈ l := by
  induction l with
  | nil => simp [insertSortedDedup]
  | cons b bs ih =>
    by_cases h1 : lt a b = true
    · rw [show insertSortedDedup lt a (b :: bs) = a :: b :: bs by
        simp [insertSortedDedup, h1]]
      simp
    · by_cases h2 : a = b
      · subst h2
        rw [show insertSortedDedup lt a (a :: bs) = a :: bs by
          simp [insertSortedDedup, h1]]
        simp only [List.mem_cons]
        tauto
      · rw [show insertSortedDedup lt a (b :: bs) = b :: insertSortedDedup lt a bs by
          simp [insertSortedDedup, h1, h2]]
        simp only [List.mem_cons, ih]
        tauto

theorem mem_sortedDedup (lt : α → α → Bool) [DecidableEq α] (x : α)
    (l : List α) : x ∈ sortedDedup lt l ↔ x ∈ l := by
  induction l with
  | nil => simp [sortedDedup]
  | cons b bs ih =>
    have h : sortedDedup lt (b :: bs) = insertSortedDedup lt b (sortedDedup lt bs) := rfl
    rw [h, mem_insertSortedDedup, ih, List.mem_cons]

theorem pairwise_insertSortedDedup (lt : α → α → Bool) [DecidableEq α]
    (htr : ∀ a b c, lt a b = true → lt b c = true → lt a c = true)
    (hto : ∀ a b : α, a ≠ b → lt a b = true ∨ lt b a = true)
    (a : α) (l : List α) (hl : l.Pairwise (fun x y => lt x y = true)) :
    (insertSortedDedup lt a l).Pairwise (fun x y => lt x y = true) := by
  induction l with
  | nil => simp [insertSortedDedup]
  | cons b bs ih =>
    rcases List.pairwise_cons.mp hl with ⟨hb, hbs⟩
    by_cases h1 : lt a b = true
    · simp only [insertSortedDedup, h1, if_pos]
      refine List.pairwise_cons.mpr ⟨?_, hl⟩
      intro x hx
      rcases List.mem_cons.mp hx with rfl | hx
      · exact h1
      · exact htr a b x h1 (hb x hx)
    · by_cases h2 : a = b
      · subst h2; simp only [insertSortedDedup, h1, if_neg, if_pos rfl]
        exact hl
      · simp only [insertSortedDedup, h1, if_neg h2, if_neg]
        refine List.pairwise_cons.mpr ⟨?_, ih hbs⟩
        intro x hx
        rcases (mem_insertSortedDedup lt a x bs).mp hx with rfl | hx
        · rcases hto x b h2 with h | h
          · exact absurd h h1
          · exact h
        · exact hb x hx

theorem pairwise_sortedDedup (lt : α → α → Bool) [DecidableEq α]
    (htr : ∀ a b c, lt a b = true → lt b c = true → lt a c = true)
    (hto : ∀ a b : α, a ≠ b → lt a b = true ∨ lt b a = true)
    (l : List α) :
    (sortedDedup lt l).Pairwise (fun x y => lt x y = true) := by
  induction l with
  | nil => simp [sortedDedup]
  | cons b bs ih =>
    have h : sortedDedup lt (b :: bs) = insertSortedDedup lt b (sortedDedup lt bs) := rfl
    rw [h]
    exact pairwise_insertSortedDedup lt htr hto b (sortedDedup lt bs) ih

theorem perm_insertBy (le : α → α → Bool) (a : α) (l : List α) :
    (insertBy le a l).Perm (a :: l) := by
  induction l with
  | nil => simp [insertBy]
  | cons b bs ih =>
    by_cases h : le a b = true
    · simp [insertBy, h]
    · simp only [insertBy, h, if_neg]
      exact ((ih.cons b).trans (List.Perm.swap a b bs))

theorem perm_insertionSortBy (le : α → α → Bool) (l : List α) :
    (insertionSortBy le l).Perm l := by
  induction l with
  | nil => simp [insertionSortBy]
  | cons b bs ih =>
    have : insertionSortBy le (b :: bs) = insertBy le b (insertionSortBy le bs) := rfl
    rw [this]
    exact (perm_insertBy le b (insertionSortBy le bs)).trans (ih.cons b)

theorem pairwise_insertBy (le : α → α → Bool)
    (htr : ∀ a b c, le a b = true → le b c = true → le a c = true)
    (hto : ∀ a b : α, le a b = true ∨ le b a = true)
    (a : α) (l : List α) (hl : l.Pairwise (fun x y => le x y = true)) :
    (insertBy le a l).Pairwise (fun x y => le x y = true) := by
  induction l with
  | nil => simp [insertBy]
  | cons b bs ih =>
    rcases List.pairwise_cons.mp hl with ⟨hb, hbs⟩
    by_cases h : le a b = true
    · simp only [insertBy, h, if_pos]
      refine List.pairwise_cons.mpr ⟨?_, hl⟩
      intro x hx
      rcases List.mem_cons.mp hx with rfl | hx
      · exact h
      · exact htr a b x h (hb x hx)
    · simp only [insertBy, h, if_neg]
      refine List.pairwise_cons.mpr ⟨?_, ih hbs⟩
      intro x hx
      have hx' : x ∈ a :: bs := (perm_insertBy le a bs).mem_iff.mp hx
      rcases List.mem_cons.mp hx' with rfl | hx'
      · rcases hto x b with h' | h'
        · exact absurd h' h
        · exact h'
      · exact hb x hx'

theorem pairwise_insertionSortBy (le : α → α → Bool)
    (htr : ∀ a b c, le a b = true → le b c = true → le a c = true)
    (hto : ∀ a b : α, le a b = true ∨ le b a = true)
    (l : List α) :
    (insertionSortBy le l).Pairwise (fun x y => le x y = true) := by
  induction l with
  | nil => simp [insertionSortBy]
  | cons b bs ih =>
    exact pairwise_insertBy le htr hto b (insertionSortBy le bs) ih

/-! ### Lemmas about the string order -/

theorem charsLt_trans : ∀ a b c : List Char,
    charsLt a b = true → charsLt b c = true → charsLt a c = true
  | [], [], _, hab, _ => by simp [charsLt] at hab
  | [], _ :: _, [], _, hbc => by simp [charsLt] at hbc
  | [], _ :: _, _ :: _, _, _ => by simp [charsLt]
  | _ :: _, [], _, hab, _ => by simp [charsLt] at hab
  | _ :: _, _ :: _, [], _, hbc => by simp [charsLt] at hbc
  | a :: as, b :: bs, c :: cs, hab, hbc => by
    simp only [charsLt] at hab hbc ⊢
    by_cases h1 : a.toNat < b.toNat
    · by_cases h2 : b.toNat < c.toNat
      · simp [show a.toNat < c.toNat from Nat.lt_trans h1 h2]
      · simp only [h2, if_neg, if_pos h1] at hbc ⊢
        by_cases h3 : c.toNat < b.toNat
        · simp [h3] at hbc
        · have hbc' : b.toNat = c.toNat := Nat.le_antisymm (Nat.not_lt.mp h3) (Nat.not_lt.mp h2)
          simp [show a.toNat < c.toNat from hbc' ▸ h1]
    · by_cases h1' : b.toNat < a.toNat
      · simp [h1, h1'] at hab
      · have hab' : a.toNat = b.toNat := Nat.le_antisymm (Nat.not_lt.mp h1') (Nat.not_lt.mp h1)
        simp only [h1, h1', if_neg] at hab
        by_cases h2 : b.toNat < c.toNat
        · simp [hab' ▸ h2]
        · by_cases h3 : c.toNat < b.toNat
          · simp [h2, h3] at hbc
          · have hbc' : b.toNat = c.toNat := Nat.le_antisymm (Nat.not_lt.mp h3) (Nat.not_lt.mp h2)
            simp only [h2, h3, if_neg] at hbc
            have : ¬ a.toNat < c.toNat := by omega
            simp only [this, if_neg]
            have : ¬ c.toNat < a.toNat := by omega
            simp only [this, if_neg]
            exact charsLt_trans as bs cs hab hbc

theorem char_toNat_inj {a b : Char} (h : a.toNat = b.toNat) : a = b :=
  Char.ext (UInt32.ext h)

theorem charsLt_total : ∀ a b : List Char,
    a ≠ b → charsLt a b = true ∨ charsLt b a = true
  | [], [], h => absurd rfl h
  | [], _ :: _, _ => by simp [charsLt]
  | _ :: _, [], _ => by simp [charsLt]
  | a :: as, b :: bs, h => by
    simp only [charsLt]
    by_cases h1 : a.toNat < b.toNat
    · simp [h1]
    · by_cases h2 : b.toNat < a.toNat
      · simp [h1, h2]
      · have hab : a = b := char_toNat_inj (Nat.le_antisymm (Nat.not_lt.mp h2) (Nat.not_lt.mp h1))
        subst hab
        have h' : as ≠ bs := by intro hh; exact h (hh ▸ rfl)
        simpa [h1, h2] using charsLt_total as bs h'

theorem strLt_trans (a b c : String) (hab : strLt a b = true)
    (hbc : strLt b c = true) : strLt a c = true :=
  charsLt_trans a.data b.data c.data hab hbc

theorem string_data_inj {a b : String} (h : a.data = b.data) : a = b := by
  cases a
  cases b
  exact congrArg String.mk h

theorem strLt_total (a b : String) (h : a ≠ b) :
    strLt a b = true ∨ strLt b a = true := by
  apply charsLt_total
  intro hd
  exact h (string_data_inj hd)

theorem intLt_trans (a b c : Int) (hab : intLt a b = true)
    (hbc : intLt b c = true) : intLt a c = true := by
  simp only [intLt, decide_eq_true_eq] at *
  omega

theorem intLt_total (a b : Int) (h : a ≠ b) :
    intLt a b = true ∨ intLt b a = true := by
  simp only [intLt, decide_eq_true_eq]
  omega

/-! ### Lemmas about the chunked loader -/

theorem flatten_chunksOfAux (n : Nat) (hn : 0 < n) :
    ∀ (fuel : Nat) (l : List α), l.length ≤ fuel →
      (chunksOfAux n fuel l).flatten = l := by
  intro fuel
  induction fuel with
  | zero =>
    intro l hl
    have : l = [] := List.eq_nil_of_length_eq_zero (Nat.le_zero.mp hl)
    subst this
    simp [chunksOfAux]
  | succ fuel ih =>
    intro l hl
    cases l with
    | nil => simp [chunksOfAux]
    | cons c cs =>
      have hlen : ((c :: cs).drop n).length ≤ fuel := by
        rw [List.length_drop]
        simp only [List.length_cons] at hl ⊢
        omega
      simp only [chunksOfAux, List.flatten_cons]
      rw [ih ((c :: cs).drop n) hlen]
      exact List.take_append_drop n (c :: cs)

theorem flatten_chunksOf (n : Nat) (hn : 0 < n) (l : List α) :
    (chunksOf n l).flatten = l :=
  flatten_chunksOfAux n hn l.length l le_rfl

theorem loadChunksCapped_none (cs : List (List SrcRow)) :
    loadChunksCapped none cs = cs.flatten.map processRow := by
  induction cs with
  | nil => simp [loadChunksCapped]
  | cons c rest ih => simp [loadChunksCapped, ih]

theorem loadChunksCapped_some (cs : List (List SrcRow)) :
    ∀ k : Nat, loadChunksCapped (some k) cs = (cs.flatten.map processRow).take k := by
  induction cs with
  | nil => intro k; simp [loadChunksCapped]
  | cons c rest ih =>
    intro k
    by_cases hk : k = 0
    · subst hk; simp [loadChunksCapped]
    · rw [show loadChunksCapped (some k) (c :: rest)
          = (c.take k).map processRow
            ++ loadChunksCapped (some (k - (c.take k).length)) rest by
        simp [loadChunksCapped, hk]]
      rw [ih]
      simp only [List.flatten_cons, List.map_append, List.take_append_eq_append_take,
        List.map_take, List.length_take, List.length_map]
      congr 1
      congr 1
      omega

/-! ### Lemmas about the filter mask -/

theorem dateTime_leB_iff (a b : DateTime) :
    DateTime.leB a b = true ↔ DateTime.le a b := by
  simp [DateTime.leB, DateTime.le, Bool.or_eq_true, Bool.and_eq_true,
    decide_eq_true_eq]

theorem startBound_iff (sd : Option Int) (dt : Option DateTime) :
    (match sd with
     | none => true
     | some d => dtGeB dt (date_to_dt d)) = true ↔
      ∀ d, sd = some d → ∃ t, dt = some t ∧ DateTime.le (date_to_dt d) t := by
  cases sd with
  | none => simp
  | some d =>
    cases dt with
    | none => simp [dtGeB]
    | some t => simp [dtGeB, dateTime_leB_iff]

theorem endBound_iff (sd : Option Int) (dt : Option DateTime) :
    (match sd with
     | none => true
     | some d => dtLeB dt (date_to_dt d)) = true ↔
      ∀ d, sd = some d → ∃ t, dt = some t ∧ DateTime.le t (date_to_dt d) := by
  cases sd with
  | none => simp
  | some d =>
    cases dt with
    | none => simp [dtLeB]
    | some t => simp [dtLeB, dateTime_leB_iff]

theorem setBound_iff (sel : Finset String) (values : List String) :
    (if sel = ∅ then true else _intersects values sel) = true ↔
      (sel ≠ ∅ → ∃ v ∈ values, v ∈ sel) := by
  by_cases h : sel = ∅
  · simp [h]
  · simp [h, _intersects, List.any_eq_true, decide_eq_true_eq]

theorem row_mask_iff (s : FilterState) (r : Row) :
    row_mask s r = true ↔ specRowPasses s r := by
  unfold row_mask specRowPasses
  simp only [Bool.and_eq_true]
  rw [startBound_iff, endBound_iff, setBound_iff, setBound_iff, setBound_iff]
  tauto

theorem map_proj_eq (g : β → γ) (f : γ → β) (l : List γ)
    (hf : ∀ d, g (f d) = d) : (l.map f).map g = l := by
  induction l with
  | nil => rfl
  | cons d ds ih => simp [hf, ih]

theorem sortedDedup_eq_nil_iff (lt : α → α → Bool) [DecidableEq α]
    (l : List α) : sortedDedup lt l = [] ↔ l = [] := by
  constructor
  · intro h
    cases l with
    | nil => rfl
    | cons a as =>
      have ha : a ∈ sortedDedup lt (a :: as) :=
        (mem_sortedDedup lt a (a :: as)).mpr (List.mem_cons_self a as)
      rw [h] at ha
      exact absurd ha (List.not_mem_nil a)
  · intro h
    subst h
    rfl

/-! ### Claim theorems -/

/-- C1: for every table and filter state, `apply_filters` returns
exactly the rows (a sub-list of the input, so order and multiplicity
are preserved) satisfying the logical AND of all active constraints:
an active start bound requires a present `publishedAt >= startDate`, an
active end bound requires `publishedAt <= endDate` (both inclusive,
absent `publishedAt` failing any active bound), and each non-empty
selection requires the corresponding multi-valued column to intersect
the selected set, an empty selection imposing no constraint. -/
theorem C1_filter_exact (df : List Row) (s : FilterState) :
    (apply_filters df s).Sublist df ∧
      ∀ r, r ∈ apply_filters df s ↔ r ∈ df ∧ specRowPasses s r := by
  unfold apply_filters
  by_cases h : df = []
  · subst h; simp
  · rw [if_neg h]
    refine ⟨List.filter_sublist df, fun r => ?_⟩
    rw [List.mem_filter, row_mask_iff]

/-- C2: the decoder never raises for any string input: every exception
kind the literal-parsing step can produce is listed in the
`except` clause, so the decode always falls through to bracket
stripping and comma splitting and returns a well-defined sequence. -/
theorem C2_decode_total (s : String) :
    parse_list_cell_try s = Except.ok (parse_list_cell_str s) := by
  simp only [parse_list_cell_try, parse_list_cell_str]
  by_cases h : pyStrip s = ""
  · rw [if_pos h, if_pos h]
  · rw [if_neg h, if_neg h]
    cases hle : literal_eval (pyStrip s) with
    | ok lit => cases lit <;> rfl
    | error e => cases e <;> rfl

/-- C4 counterexample: decoding `"[Alice, 'Bob"` does not return
`["Alice", "Bob"]`; the bracket-stripping step requires the text to
both start with `[` and end with `]`, so the leading bracket stays on
the first piece and the decode returns `["[Alice", "Bob"]`. -/
theorem C4_counterexample :
    parse_list_cell (PyCell.str exBadCell)
        = [String.mk ['[', 'A', 'l', 'i', 'c', 'e'], "Bob"] ∧
      parse_list_cell (PyCell.str exBadCell) ≠ ["Alice", "Bob"] :=
  ⟨by decide, by decide⟩

/-- C4 (amended): decoding the unbalanced-bracket input
`"[Alice, 'Bob"` falls through the failed literal parse to comma
splitting with whitespace and quote trimming, but keeps the leading
bracket (stripped only when the text both starts with `[` and ends with
`]`), returning exactly `["[Alice", "Bob"]`. -/
theorem C4_decode_bracket :
    parse_list_cell (PyCell.str exBadCell)
      = [String.mk ['[', 'A', 'l', 'i', 'c', 'e'], "Bob"] := by
  decide

/-- C3 counterexample: a source cell holding the numeric text `"-5"` is
loaded with `shows = -5`; the coercion preserves negative numeric
values, so the loaded table violates the claimed non-negativity. -/
theorem C3_counterexample :
    (from_csv_rows [mkSrcRow (PyCell.int 1) (PyCell.str "-5")] 100 none).map
        Row.shows = [-5] ∧
      ¬ ∀ r ∈ from_csv_rows [mkSrcRow (PyCell.int 1) (PyCell.str "-5")] 100 none,
          0 ≤ r.shows :=
  ⟨by decide, by decide⟩

/-- C3 (amended): after loading, every row's `shows` is the concrete
integer coercion of its source cell — missing or NaN cells and
non-numeric text coerce to 0, while numeric values are preserved
unchanged, including negative ones (so the result need not be
non-negative). -/
theorem C3_shows_coercion (src : List SrcRow) (cs : Nat) (h : 0 < cs) :
    ((from_csv_rows src cs none).map Row.shows
        = src.map (fun r => to_numeric_shows r.shows)) ∧
      to_numeric_shows PyCell.nan = 0 ∧
      to_numeric_shows PyCell.pynone = 0 ∧
      (∀ s, to_numeric_shows (PyCell.str s) = (parseIntText s).getD 0) ∧
      (∀ n, to_numeric_shows (PyCell.int n) = n) := by
  refine ⟨?_, rfl, rfl, fun s => rfl, fun n => rfl⟩
  unfold from_csv_rows
  rw [loadChunksCapped_none, flatten_chunksOf cs h, List.map_map]
  rfl

/-- C3 witness: the amended coercion statement at a concrete one-row
source with a NaN `shows` cell and chunk size 3. -/
theorem C3_shows_witness :
    0 < 3 ∧
      (((from_csv_rows [mkSrcRow (PyCell.int 1) PyCell.nan] 3 none).map Row.shows
          = [mkSrcRow (PyCell.int 1) PyCell.nan].map
              (fun r => to_numeric_shows r.shows)) ∧
        to_numeric_shows PyCell.nan = 0 ∧
        to_numeric_shows PyCell.pynone = 0 ∧
        (∀ s, to_numeric_shows (PyCell.str s) = (parseIntText s).getD 0) ∧
        (∀ n, to_numeric_shows (PyCell.int n) = n)) :=
  ⟨by decide, C3_shows_coercion [mkSrcRow (PyCell.int 1) PyCell.nan] 3 (by decide)⟩

/-- C7: loading with a row cap `k` over a source of `N` rows yields
exactly `min k N` rows, equal in content to the first `min k N` rows of
an uncapped load of the same source: the loop truncates the final chunk
instead of overshooting the cap. -/
theorem C7_max_rows (src : List SrcRow) (chunksize k : Nat)
    (h : 0 < chunksize) :
    (from_csv_rows src chunksize (some k)).length = min k src.length ∧
      from_csv_rows src chunksize (some k)
        = (from_csv_rows src chunksize none).take (min k src.length) := by
  have hc : from_csv_rows src chunksize (some k) = (src.map processRow).take k := by
    unfold from_csv_rows
    rw [loadChunksCapped_some, flatten_chunksOf chunksize h]
  have hu : from_csv_rows src chunksize none = src.map processRow := by
    unfold from_csv_rows
    rw [loadChunksCapped_none, flatten_chunksOf chunksize h]
  constructor
  · rw [hc, List.length_take, List.length_map]
  · rw [hc, hu, List.take_eq_take, List.length_map]
    omega

/-- C7 witness: the cap theorem at a three-row source with chunk size 2
and cap 2. -/
theorem C7_witness :
    0 < 2 ∧
      ((from_csv_rows src3 2 (some 2)).length = min 2 src3.length ∧
        from_csv_rows src3 2 (some 2)
          = (from_csv_rows src3 2 none).take (min 2 src3.length)) :=
  ⟨by decide, C7_max_rows src3 2 2 (by decide)⟩

/-- C8 counterexample: with an existing cache artifact the source is
never consulted, so a load whose source path is unreadable still
succeeds instead of failing with `SourceNotFoundError`, refuting
"fails whenever the source path does not resolve to a readable file". -/
theorem C8_counterexample :
    load (some []) SourceState.missing 100 none = Except.ok [] ∧
      load (some []) SourceState.missing 100 none
        ≠ Except.error LoadError.sourceNotFound :=
  ⟨rfl, fun h => Except.noConfusion h⟩

/-- C8 (amended): when no cache artifact exists, a load fails with
`SourceNotFoundError` exactly when the source path is unreadable and
with `MalformedSourceError` exactly when the source cannot be parsed as
tabular data, succeeding otherwise; when a cache artifact exists, the
table is read from it and the load succeeds regardless of the source
state. -/
theorem C8_load_errors (cs : Nat) (k : Option Nat) :
    (∀ df src, load (some df) src cs k = Except.ok df) ∧
      load none SourceState.missing cs k = Except.error LoadError.sourceNotFound ∧
      load none SourceState.malformed cs k = Except.error LoadError.malformedSource ∧
      (∀ rows, load none (SourceState.rowsOk rows) cs k
          = Except.ok (from_csv_rows rows cs k)) ∧
      ∀ src e, load none src cs k = Except.error e ↔
        (e = LoadError.sourceNotFound ∧ src = SourceState.missing) ∨
          (e = LoadError.malformedSource ∧ src = SourceState.malformed) := by
  refine ⟨fun df src => rfl, rfl, rfl, fun rows => rfl, fun src e => ?_⟩
  cases src <;> cases e <;> simp [load]

/-- C5: `aggregate_by_day` returns one entry per distinct calendar date
among rows with a valid `publishedAt` (time-of-day discarded), counting
such rows and summing their `shows` per date; rows with absent
`publishedAt` are excluded; the result is sorted by date ascending; an
empty or all-absent input yields an empty summary; and the concrete
instance with dates [d1, d1, d2] and shows [5, 3, 7] yields
[(d1, count 2, shows 8), (d2, count 1, shows 7)]. -/
theorem C5_aggregate_by_day (df : List Row) :
    ((aggregate_by_day df).map DayStat.date).Pairwise (fun a b => a < b) ∧
      (∀ d, d ∈ (aggregate_by_day df).map DayStat.date ↔
        ∃ r ∈ df, rowDay r = some d) ∧
      (∀ e ∈ aggregate_by_day df,
        e.publications
            = (df.filter (fun r => decide (rowDay r = some e.date))).length ∧
          e.shows = ((df.filter (fun r => decide (rowDay r = some e.date))).map
            Row.shows).sum) ∧
      (aggregate_by_day df = [] ↔ df.filterMap rowDay = []) ∧
      aggregate_by_day
          [mkRow (some ⟨20240101, 0⟩) 5, mkRow (some ⟨20240101, 0⟩) 3,
            mkRow (some ⟨20240102, 0⟩) 7]
        = [⟨20240101, 2, 8⟩, ⟨20240102, 1, 7⟩] := by
  have hdates : (aggregate_by_day df).map DayStat.date
      = sortedDedup intLt (df.filterMap rowDay) := by
    unfold aggregate_by_day
    exact map_proj_eq DayStat.date _ _ (fun d => rfl)
  refine ⟨?_, ?_, ?_, ?_, by decide⟩
  · rw [hdates]
    exact (pairwise_sortedDedup intLt intLt_trans intLt_total _).imp
      (fun h => by simpa [intLt] using h)
  · intro d
    rw [hdates, mem_sortedDedup, List.mem_filterMap]
  · intro e he
    unfold aggregate_by_day at he
    rcases List.mem_map.mp he with ⟨d, hd, rfl⟩
    exact ⟨rfl, rfl⟩
  · unfold aggregate_by_day
    rw [List.map_eq_nil_iff, sortedDedup_eq_nil_iff]

/-- C10: `extract_unique` silently skips any cell holding a plain
string or bytes object (such a cell contributes no values at all — it
is neither split into characters nor treated as a one-element
sequence), while cells holding non-string iterables contribute each of
their non-empty elements, and the result is deduplicated and sorted. -/
theorem C10_extract_unique (cells : List UCell) :
    (∀ s, extract_unique (cells ++ [UCell.str s]) = extract_unique cells) ∧
      (∀ bs, extract_unique (cells ++ [UCell.bytes bs]) = extract_unique cells) ∧
      (∀ x, x ∈ extract_unique cells ↔
        x ≠ "" ∧ ∃ xs, UCell.strList xs ∈ cells ∧ x ∈ xs) ∧
      (extract_unique cells).Pairwise (fun a b => strLt a b = true) := by
  refine ⟨?_, ?_, ?_, ?_⟩
  · intro s
    simp [extract_unique, List.flatMap_append, ucellItems]
  · intro bs
    simp [extract_unique, List.flatMap_append, ucellItems]
  · intro x
    simp only [extract_unique, mem_sortedDedup, List.mem_filter,
      List.mem_flatMap, decide_eq_true_eq]
    constructor
    · rintro ⟨⟨c, hc, hx⟩, hne⟩
      refine ⟨hne, ?_⟩
      rcases c with _ | s | bs | xs | n
      · simp [ucellItems] at hx
      · simp [ucellItems] at hx
      · simp [ucellItems] at hx
      · exact ⟨xs, hc, hx⟩
      · simp [ucellItems] at hx
    · rintro ⟨hne, xs, hcs, hx⟩
      exact ⟨⟨UCell.strList xs, hcs, hx⟩, hne⟩
  · exact pairwise_sortedDedup strLt strLt_trans strLt_total _

theorem rankKeyLe_trans (a b c : Nat × EntityStat)
    (hab : rankKeyLe a b = true) (hbc : rankKeyLe b c = true) :
    rankKeyLe a c = true := by
  simp only [rankKeyLe, decide_eq_true_eq, rankKeyLeP] at *
  omega

theorem rankKeyLe_total (a b : Nat × EntityStat) :
    rankKeyLe a b = true ∨ rankKeyLe b a = true := by
  simp only [rankKeyLe, decide_eq_true_eq, rankKeyLeP]
  omega

theorem pairwise_fst_lt_enum (l : List β) :
    l.enum.Pairwise (fun a b => a.1 < b.1) := by
  rw [List.pairwise_iff_getElem]
  intro i j hi hj hij
  rw [List.getElem_enum, List.getElem_enum]
  exact hij

/-- C6 counterexample: on the exploded input [("B", 2), ("A", 2)] both
entities have one mention and equal shows, a full tie; the ranking
returns them in entity order ["A", "B"] (pandas sorts group keys
ascending and the stable sort keeps that order), not in first-seen
input order ["B", "A"] as the claim states. -/
theorem C6_counterexample :
    rankEntities [("B", 2), ("A", 2)] 2
        = [EntityStat.mk "A" 1 2, EntityStat.mk "B" 1 2] ∧
      rankEntities [("B", 2), ("A", 2)] 2
        ≠ [EntityStat.mk "B" 1 2, EntityStat.mk "A" 1 2] :=
  ⟨by decide, by decide⟩

/-- C6 (amended): `rankEntities` groups by entity value with mentions
(occurrence count) and summed shows per entity, sorts by mentions
descending then shows descending, breaks remaining ties by entity value
ascending (the group keys are produced in sorted order and the sort is
stable), and truncates to the top `topN` entries. -/
theorem C6_rank_entities (xs : List (String × Int)) (topN : Nat) :
    rankEntities xs topN = (sortMentionsDesc (groupEntities xs)).take topN ∧
      (sortMentionsDesc (groupEntities xs)).Perm (groupEntities xs) ∧
      (∀ e m sh, EntityStat.mk e m sh ∈ sortMentionsDesc (groupEntities xs) ↔
        (e ∈ xs.map Prod.fst ∧
          m = (xs.filter (fun p => decide (p.1 = e))).length ∧
          sh = ((xs.filter (fun p => decide (p.1 = e))).map Prod.snd).sum)) ∧
      (sortMentionsDesc (groupEntities xs)).Pairwise (fun a b =>
        b.mentions < a.mentions ∨
          (a.mentions = b.mentions ∧
            (b.shows < a.shows ∨
              (a.shows = b.shows ∧ strLt a.entity b.entity = true)))) := by
  have hperm : (insertionSortBy rankKeyLe (groupEntities xs).enum).Perm
      (groupEntities xs).enum :=
    perm_insertionSortBy rankKeyLe (groupEntities xs).enum
  have hpermsnd : (sortMentionsDesc (groupEntities xs)).Perm (groupEntities xs) := by
    have h := hperm.map Prod.snd
    rwa [List.enum_map_snd] at h
  refine ⟨rfl, hpermsnd, ?_, ?_⟩
  · intro e m sh
    rw [hpermsnd.mem_iff]
    unfold groupEntities
    simp only [List.mem_map, mem_sortedDedup]
    constructor
    · rintro ⟨d, hd, heq⟩
      rw [EntityStat.mk.injEq] at heq
      obtain ⟨rfl, hm, hs⟩ := heq
      exact ⟨hd, hm.symm, hs.symm⟩
    · rintro ⟨he, rfl, rfl⟩
      exact ⟨e, he, rfl⟩
  · have hsorted : (insertionSortBy rankKeyLe (groupEntities xs).enum).Pairwise
        (fun x y => rankKeyLe x y = true) :=
      pairwise_insertionSortBy rankKeyLe rankKeyLe_trans rankKeyLe_total _
    have hfstne : (insertionSortBy rankKeyLe (groupEntities xs).enum).Pairwise
        (fun x y => x.1 ≠ y.1) :=
      (List.Perm.pairwise_iff (fun h => Ne.symm h) hperm).mpr
        ((pairwise_fst_lt_enum (groupEntities xs)).imp (fun h => Nat.ne_of_lt h))
    have hgent : (groupEntities xs).Pairwise
        (fun a b => strLt a.entity b.entity = true) := by
      unfold groupEntities
      rw [List.pairwise_map]
      exact pairwise_sortedDedup strLt strLt_trans strLt_total _
    have hcomb := hsorted.and hfstne
    unfold sortMentionsDesc
    rw [List.pairwise_map]
    refine hcomb.imp_of_mem ?_
    intro a b ha hb hab
    obtain ⟨hle, hne⟩ := hab
    simp only [rankKeyLe, decide_eq_true_eq] at hle
    rcases hle with h1 | ⟨hm, h2⟩
    · exact Or.inl h1
    · rcases h2 with h2 | ⟨hs, hij⟩
      · exact Or.inr ⟨hm, Or.inl h2⟩
      · refine Or.inr ⟨hm, Or.inr ⟨hs, ?_⟩⟩
        have hij' : a.1 < b.1 := lt_of_le_of_ne hij hne
        have ha' : a ∈ (groupEntities xs).enum := (hperm.mem_iff).mp ha
        have hb' : b ∈ (groupEntities xs).enum := (hperm.mem_iff).mp hb
        rw [List.mem_enum_iff_getElem?, List.getElem?_eq_some] at ha' hb'
        obtain ⟨hal, hae⟩ := ha'
        obtain ⟨hbl, hbe⟩ := hb'
        have hg := (List.pairwise_iff_getElem.mp hgent) a.1 b.1 hal hbl hij'
        rwa [hae, hbe] at hg

/-- C9: filtering is idempotent and deterministic: re-filtering an
already-filtered table with the same state changes nothing, and two
calls with the same inputs yield identical results. -/
theorem C9_idempotent (df : List Row) (s : FilterState) :
    apply_filters (apply_filters df s) s = apply_filters df s ∧
      apply_filters df s = apply_filters df s := by
  refine ⟨?_, rfl⟩
  unfold apply_filters
  by_cases h : df = []
  · subst h; simp
  · rw [if_neg h]
    by_cases h2 : df.filter (row_mask s) = []
    · rw [h2]; simp
    · rw [if_neg h2, List.filter_filter]
      exact List.filter_congr (fun x _ => by rw [Bool.and_self])

end NewsMapper
